import Mathlib

/-!
Shallow embedding of the U++ `StateMachine` engine
(`include/statemachine.h`, `src/statemachine.cpp`) and proofs about its
transition pipeline, history stack and reentrancy guard.

Modelling conventions:

* `Upp::String` stays `String`; `Upp::Vector<One<T>>` becomes `List T`.
* The history `Vector` grows at its end in C++ (`Add` appends, `Top()` is the
  last element, `Pop()` drops it).  Here the list HEAD is the stack top:
  `Add` is cons, `Top()` is the head, `Pop()` is `tail`.  The bootstrap
  record therefore sits at the END of the list.
* The asynchronous handlers `Function<void(StateMachine&, Function<void(bool)>)>`
  are modelled at the synchronous-completion fragment: a handler is a data
  record `HandlerBeh` holding the list of events it fires back into the
  machine (`TriggerEvent` calls issued from inside the handler — the
  reentrancy the `transitioning` flag must suppress) and the boolean it
  passes to its `done` continuation.  Hooks (`OnBefore`, `OnAfter`,
  `WhenTransitionStarted`, `WhenTransitionFinished`) are likewise `HookBeh`
  records.  `tag` is an identity marker so theorems can say WHICH hook fired.
* Every hook and handler invocation is recorded in a trace (`TraceEv`),
  mirroring the observable callback sequence of the C++ pipeline.
* `TransitionContext` drops the `machine` reference member (the engine only
  reads its three string members).
* The `fuel` parameter bounds the nesting depth of reentrant event dispatch.
  The `transitioning` flag cuts all reentrancy (proved below), so any
  positive fuel yields the exact semantics of the C++ code.
-/

namespace Upp

/-- Behaviour of a synchronous `OnEnter` / `OnExit` handler: the `TriggerEvent`
calls it issues on the machine before completing, and the boolean it passes to
its `done` continuation.  `tag` identifies the handler in the trace. -/
structure HandlerBeh where
  tag : Nat
  triggers : List String
  result : Bool
  deriving DecidableEq

/-- Behaviour of a void hook (`OnBefore`, `OnAfter`, `WhenTransitionStarted`,
`WhenTransitionFinished`): the `TriggerEvent` calls it issues.  `tag`
identifies the hook in the trace. -/
structure HookBeh where
  tag : Nat
  triggers : List String
  deriving DecidableEq

/-- `struct State` of statemachine.h: id plus optional async handlers.  A
`none` handler models a null `Upp::Function` (the "treat as immediate
success" case of the pipeline). -/
structure State where
  id : String
  onEnter : Option HandlerBeh
  onExit : Option HandlerBeh
  deriving DecidableEq

/-- `struct TransitionContext` of statemachine.h without the `machine`
reference member (never read by the engine itself). -/
structure TransitionContext where
  fromState : String
  toState : String
  event : String
  deriving DecidableEq

/-- `struct Transition` of statemachine.h. -/
structure Transition where
  event : String
  «from» : String
  «to» : String
  guard : Option (TransitionContext → Bool)
  onBefore : Option HookBeh
  onAfter : Option HookBeh

/-- `struct TransitionRecord` of statemachine.h. -/
structure TransitionRecord where
  «from» : String
  «to» : String
  event : String
  deriving DecidableEq

/-- `class StateMachine` of statemachine.h: registries, history, current and
initial state ids, the reentrancy flag, and the two machine-wide hooks. -/
structure StateMachine where
  states : List State
  transitions : List Transition
  transitionHistory : List TransitionRecord
  current : String
  initial : String
  transitioning : Bool
  whenTransitionStarted : Option HookBeh
  whenTransitionFinished : Option HookBeh

/-- One entry of the observable callback trace of a pipeline run. -/
inductive TraceEv where
  | started (tag : Nat) (ctx : TransitionContext)
  | before (tag : Nat) (ctx : TransitionContext)
  | exitInvoked (tag : Nat)
  | enterInvoked (tag : Nat)
  | finished (tag : Nat) (ctx : TransitionContext)
  | after (tag : Nat) (ctx : TransitionContext)
  deriving DecidableEq

/-- Result of one `DoTransition` pipeline run: the machine afterwards, the
boolean delivered to `on_done`, and the callback trace. -/
structure TR where
  m : StateMachine
  ok : Bool
  tr : List TraceEv

/-- `GetCurrent()`. -/
def getCurrent (m : StateMachine) : String := m.current

/-- `IsTransitioning()`. -/
def isTransitioning (m : StateMachine) : Bool := m.transitioning

/-- `CanGoBack()`: `transitionHistory.GetCount() > 1`. -/
def canGoBack (m : StateMachine) : Bool := m.transitionHistory.length > 1

/-- `StateMachine::FindState`: linear scan, first match. -/
def findState (m : StateMachine) (id : String) : Option State :=
  m.states.find? (fun s => s.id == id)

/-- `StateMachine::FindTransition`: linear scan on `(from, event)`, first
match. -/
def findTransition (m : StateMachine) (f e : String) : Option Transition :=
  m.transitions.find? (fun t => t.«from» == f && t.event == e)

/-- `StateMachine::AddState`: append to the registry. -/
def addState (m : StateMachine) (s : State) : StateMachine :=
  { m with states := m.states ++ [s] }

/-- `StateMachine::AddTransition`: append to the registry. -/
def addTransition (m : StateMachine) (t : Transition) : StateMachine :=
  { m with transitions := m.transitions ++ [t] }

/-- `SetInitial`. -/
def setInitial (m : StateMachine) (id : String) : StateMachine :=
  { m with initial := id }

/-- The guard test `t->Guard && !t->Guard(ctx)` of `TriggerEvent` /
`TryTransition`: `true` when a present guard rejects the transition. -/
def guardBlocks (t : Transition) (ctx : TransitionContext) : Bool :=
  match t.guard with
  | some g => !(g ctx)
  | none => false

/-- The branch-pruning loop of `StateMachine::Finalize`:
`while (!transitionHistory.IsEmpty() && transitionHistory.Top()->to != ctx.fromState) Pop();`. -/
def pruneHistory (h : List TransitionRecord) (f : String) : List TransitionRecord :=
  match h with
  | [] => []
  | r :: rest => if r.«to» != f then pruneHistory rest f else r :: rest

/-- `StateMachine::Finalize`: when `record` is set, prune divergent history
and push the new `TransitionRecord`. -/
def finalize (m : StateMachine) (ctx : TransitionContext) (record : Bool) : StateMachine :=
  if record then
    { m with transitionHistory :=
        TransitionRecord.mk ctx.fromState ctx.toState ctx.event ::
          pruneHistory m.transitionHistory ctx.fromState }
  else m

mutual

/-- `StateMachine::DoTransition` up to the end of the exit phase: resolve the
two states (abort with `on_done(false)` when one is missing), raise
`transitioning`, fire `WhenTransitionStarted` then `OnBefore`, then run the
source state's `OnExit` handler (immediate success when absent).  On exit
failure clear `transitioning` and abort; on success continue with the enter
phase (`doEnterF`). -/
def doTransitionF (fuel : Nat) (m : StateMachine) (t : Transition) (record : Bool) : TR :=
  match fuel with
  | 0 => TR.mk m false []
  | f + 1 =>
    match findState m t.«from», findState m t.«to» with
    | some fromS, some toS =>
      let ctx : TransitionContext := TransitionContext.mk t.«from» t.«to» t.event
      let s1 := fireHookF f { m with transitioning := true } m.whenTransitionStarted
        (fun g => TraceEv.started g ctx)
      let s2 := fireHookF f s1.1 t.onBefore (fun g => TraceEv.before g ctx)
      match fromS.onExit with
      | some hx =>
        let s3 := runTriggersF f s2.1 hx.triggers
        if hx.result then
          doEnterF f s3.1 toS ctx record (s1.2 ++ s2.2 ++ TraceEv.exitInvoked hx.tag :: s3.2)
        else
          TR.mk { s3.1 with transitioning := false } false
            (s1.2 ++ s2.2 ++ TraceEv.exitInvoked hx.tag :: s3.2)
      | none => doEnterF f s2.1 toS ctx record (s1.2 ++ s2.2)
    | _, _ => TR.mk m false []
termination_by (fuel, 0, 0)

/-- Enter phase of `DoTransition` (the lambda chained as `on_exit_done`
success branch): run the destination's `OnEnter` (immediate success when
absent); on success set `current = ctx.toState` and continue with the
completion steps (`finishF`); on failure clear `transitioning` and abort with
`current` unchanged. -/
def doEnterF (fuel : Nat) (m : StateMachine) (toS : State) (ctx : TransitionContext)
    (record : Bool) (acc : List TraceEv) : TR :=
  match toS.onEnter with
  | some he =>
    let s := runTriggersF fuel m he.triggers
    if he.result then
      finishF fuel { s.1 with current := ctx.toState } ctx record
        (acc ++ TraceEv.enterInvoked he.tag :: s.2)
    else
      TR.mk { s.1 with transitioning := false } false
        (acc ++ TraceEv.enterInvoked he.tag :: s.2)
  | none => finishF fuel { m with current := ctx.toState } ctx record acc
termination_by (fuel, 5, 0)

/-- Success branch of `on_enter_done`: fire `WhenTransitionFinished`, then
the `OnAfter` of the transition found by a FRESH registry lookup on
`(ctx.fromState, ctx.event)`, then `Finalize`, then clear `transitioning`
and deliver `on_done(true)`. -/
def finishF (fuel : Nat) (m : StateMachine) (ctx : TransitionContext)
    (record : Bool) (acc : List TraceEv) : TR :=
  let s1 := fireHookF fuel m m.whenTransitionFinished (fun g => TraceEv.finished g ctx)
  let s2 :=
    match findTransition s1.1 ctx.fromState ctx.event with
    | some tp => fireHookF fuel s1.1 tp.onAfter (fun g => TraceEv.after g ctx)
    | none => (s1.1, ([] : List TraceEv))
  TR.mk { finalize s2.1 ctx record with transitioning := false } true (acc ++ s1.2 ++ s2.2)
termination_by (fuel, 4, 0)

/-- Invoke an optional hook: record its firing in the trace and run the
`TriggerEvent` calls its body issues. -/
def fireHookF (fuel : Nat) (m : StateMachine) (hb : Option HookBeh)
    (ev : Nat → TraceEv) : StateMachine × List TraceEv :=
  match hb with
  | none => (m, [])
  | some h =>
    let s := runTriggersF fuel m h.triggers
    (s.1, ev h.tag :: s.2)
termination_by (fuel, 3, 0)

/-- Run a list of reentrant `TriggerEvent` calls issued by a handler or hook
body, threading the machine. -/
def runTriggersF (fuel : Nat) (m : StateMachine) (es : List String) :
    StateMachine × List TraceEv :=
  match es with
  | [] => (m, [])
  | e :: rest =>
    let s1 := triggerEventF fuel m e
    let s2 := runTriggersF fuel s1.1 rest
    (s2.1, s1.2 ++ s2.2)
termination_by (fuel, 2, es.length)

/-- `StateMachine::TriggerEvent`: drop when `transitioning`; look up
`(current, e)`; drop when absent or when the guard rejects; otherwise run
`DoTransition(*t)` (with `record = true`). -/
def triggerEventF (fuel : Nat) (m : StateMachine) (e : String) :
    StateMachine × List TraceEv :=
  if m.transitioning then (m, [])
  else
    match findTransition m m.current e with
    | none => (m, [])
    | some t =>
      let ctx : TransitionContext := TransitionContext.mk t.«from» t.«to» t.event
      if guardBlocks t ctx then (m, [])
      else
        let r := doTransitionF fuel m t true
        (r.m, r.tr)
termination_by (fuel, 1, 0)

end

/-- `StateMachine::TryTransition`: same busy / guard checks as
`TriggerEvent` but on an explicit descriptor; returns `true` iff
`DoTransition` was invoked. -/
def tryTransitionF (fuel : Nat) (m : StateMachine) (t : Transition) :
    StateMachine × Bool × List TraceEv :=
  if m.transitioning then (m, false, [])
  else
    let ctx : TransitionContext := TransitionContext.mk t.«from» t.«to» t.event
    if guardBlocks t ctx then (m, false, [])
    else
      let r := doTransitionF fuel m t true
      (r.m, true, r.tr)

/-- The back transition synthesized by `StateMachine::GoBack` (lines 141-146
of statemachine.cpp): from `current` to `transitionHistory.Top()->from`,
event `"__back"`, no guard and no hooks.  The empty-history default is never
reached by `GoBack` (it is guarded by `CanGoBack`). -/
def backTransitionOf (m : StateMachine) : Transition :=
  Transition.mk "__back" m.current
    (match m.transitionHistory with
     | [] => ""
     | r :: _ => r.«from»)
    none none none

/-- `StateMachine::GoBack`: no-op unless `CanGoBack()` and not
`transitioning`; otherwise run the synthesized back transition with
`record = false` and, in `on_done`, pop the history top on success. -/
def goBackF (fuel : Nat) (m : StateMachine) : StateMachine × List TraceEv :=
  if !canGoBack m || m.transitioning then (m, [])
  else
    let r := doTransitionF fuel m (backTransitionOf m) false
    if r.ok then ({ r.m with transitionHistory := r.m.transitionHistory.tail }, r.tr)
    else (r.m, r.tr)

/-- `StateMachine::Start`: set `current = initial`, push the bootstrap record
`("", initial, "__start")`, and fire the initial state's `OnEnter` with a
discarded continuation (`[](bool){}`).  The two `ASSERT`s (non-empty
`initial`, registered initial state) are debug preconditions; as in a release
build with an unknown initial id no handler runs. -/
def startF (fuel : Nat) (m : StateMachine) : StateMachine × List TraceEv :=
  let m1 := { m with
    current := m.initial
    transitionHistory := TransitionRecord.mk "" m.initial "__start" :: m.transitionHistory }
  match findState m m.initial with
  | some s =>
    match s.onEnter with
    | some h => runTriggersF fuel m1 h.triggers
    | none => (m1, [])
  | none => (m1, [])

/-- Success value a handler slot completes with: a missing handler counts as
immediate success, a present one reports its `done` boolean. -/
def handlerOk (h : Option HandlerBeh) : Bool :=
  match h with
  | some hb => hb.result
  | none => true

/-- Trace predicate: the entry is an `OnAfter` firing. -/
def isAfterEv : TraceEv → Bool
  | TraceEv.after _ _ => true
  | _ => false

/-- Trace predicate: the entry is neither a `WhenTransitionFinished` nor an
`OnAfter` firing. -/
def noFinishNoAfter : TraceEv → Bool
  | TraceEv.finished _ _ => false
  | TraceEv.after _ _ => false
  | _ => true

/-! ## The reentrancy guard -/

/-- A `TriggerEvent` arriving while `transitioning` is a silent no-op
(line 108 of statemachine.cpp). -/
theorem triggerEventF_busy (f : Nat) (m : StateMachine) (e : String)
    (h : m.transitioning = true) : triggerEventF f m e = (m, []) := by
  simp [triggerEventF, h]

/-- All reentrant `TriggerEvent` calls issued from inside a busy machine are
dropped: the machine is unchanged and no pipeline runs. -/
theorem runTriggersF_busy (f : Nat) (m : StateMachine) (es : List String)
    (h : m.transitioning = true) : runTriggersF f m es = (m, []) := by
  induction es with
  | nil => simp [runTriggersF]
  | cons e rest ih => simp [runTriggersF, triggerEventF_busy f m e h, ih]

/-- Firing a hook on a busy machine leaves the machine unchanged. -/
theorem fireHookF_busy_fst (f : Nat) (m : StateMachine) (hb : Option HookBeh)
    (ev : Nat → TraceEv) (h : m.transitioning = true) :
    (fireHookF f m hb ev).1 = m := by
  cases hb with
  | none => simp [fireHookF]
  | some b => simp [fireHookF, runTriggersF_busy f m b.triggers h]

/-- Firing a hook on a busy machine traces at most the hook firing itself. -/
theorem fireHookF_busy_snd (f : Nat) (m : StateMachine) (hb : Option HookBeh)
    (ev : Nat → TraceEv) (h : m.transitioning = true) :
    (fireHookF f m hb ev).2 = (match hb with | none => [] | some b => [ev b.tag]) := by
  cases hb with
  | none => simp [fireHookF]
  | some b => simp [fireHookF, runTriggersF_busy f m b.triggers h]

/-! ## Success-path specification of the pipeline -/

/-- On a busy machine, `finishF` commits: it reports success, leaves
`current` alone, clears `transitioning`, updates history per `Finalize`, and
does not touch the registries. -/
theorem finishF_spec (f : Nat) (m : StateMachine) (ctx : TransitionContext) (record : Bool)
    (acc : List TraceEv) (h : m.transitioning = true) :
    (finishF f m ctx record acc).ok = true ∧
    (finishF f m ctx record acc).m.current = m.current ∧
    (finishF f m ctx record acc).m.transitioning = false ∧
    (finishF f m ctx record acc).m.transitionHistory =
      (if record then
        TransitionRecord.mk ctx.fromState ctx.toState ctx.event ::
          pruneHistory m.transitionHistory ctx.fromState
       else m.transitionHistory) ∧
    (finishF f m ctx record acc).m.states = m.states ∧
    (finishF f m ctx record acc).m.transitions = m.transitions := by
  have h1 : (fireHookF f m m.whenTransitionFinished (fun g => TraceEv.finished g ctx)).1 = m :=
    fireHookF_busy_fst f m _ _ h
  simp only [finishF, h1]
  rcases hft : findTransition m ctx.fromState ctx.event with _ | tp
  · cases record <;> simp [finalize]
  · have h2 : (fireHookF f m tp.onAfter (fun g => TraceEv.after g ctx)).1 = m :=
      fireHookF_busy_fst f m _ _ h
    simp only [h2]
    cases record <;> simp [finalize]

/-- On a busy machine whose destination handler succeeds, the enter phase
sets `current` to the destination and commits. -/
theorem doEnterF_ok_spec (f : Nat) (m : StateMachine) (toS : State) (ctx : TransitionContext)
    (record : Bool) (acc : List TraceEv)
    (h : m.transitioning = true) (he : handlerOk toS.onEnter = true) :
    (doEnterF f m toS ctx record acc).ok = true ∧
    (doEnterF f m toS ctx record acc).m.current = ctx.toState ∧
    (doEnterF f m toS ctx record acc).m.transitioning = false ∧
    (doEnterF f m toS ctx record acc).m.transitionHistory =
      (if record then
        TransitionRecord.mk ctx.fromState ctx.toState ctx.event ::
          pruneHistory m.transitionHistory ctx.fromState
       else m.transitionHistory) ∧
    (doEnterF f m toS ctx record acc).m.states = m.states ∧
    (doEnterF f m toS ctx record acc).m.transitions = m.transitions := by
  cases heo : toS.onEnter with
  | none =>
    simp only [doEnterF, heo]
    exact finishF_spec f { m with current := ctx.toState } ctx record acc h
  | some heb =>
    have her : heb.result = true := by simpa [handlerOk, heo] using he
    simp only [doEnterF, heo, runTriggersF_busy f m heb.triggers h, her, if_true]
    exact finishF_spec f { m with current := ctx.toState } ctx record _ h

/-- Specification of a fully successful `DoTransition` run at positive fuel:
both states resolve and both handlers succeed; then the run reports success,
`current` becomes `t.to`, `transitioning` is cleared, the history is the
`Finalize` update (pruned push when `record`, untouched otherwise), and the
registries are untouched. -/
theorem doTransitionF_ok_spec (f : Nat) (m : StateMachine) (t : Transition) (record : Bool)
    (fromS toS : State)
    (hf : findState m t.«from» = some fromS)
    (ht : findState m t.«to» = some toS)
    (hx : handlerOk fromS.onExit = true)
    (he : handlerOk toS.onEnter = true) :
    (doTransitionF (f+1) m t record).ok = true ∧
    (doTransitionF (f+1) m t record).m.current = t.«to» ∧
    (doTransitionF (f+1) m t record).m.transitioning = false ∧
    (doTransitionF (f+1) m t record).m.transitionHistory =
      (if record then
        TransitionRecord.mk t.«from» t.«to» t.event ::
          pruneHistory m.transitionHistory t.«from»
       else m.transitionHistory) ∧
    (doTransitionF (f+1) m t record).m.states = m.states ∧
    (doTransitionF (f+1) m t record).m.transitions = m.transitions := by
  have hb : ({ m with transitioning := true } : StateMachine).transitioning = true := rfl
  have h1 : (fireHookF f { m with transitioning := true } m.whenTransitionStarted
      (fun g => TraceEv.started g (TransitionContext.mk t.«from» t.«to» t.event))).1 =
      { m with transitioning := true } := fireHookF_busy_fst f _ _ _ hb
  have h2 : (fireHookF f { m with transitioning := true } t.onBefore
      (fun g => TraceEv.before g (TransitionContext.mk t.«from» t.«to» t.event))).1 =
      { m with transitioning := true } := fireHookF_busy_fst f _ _ _ hb
  cases hxo : fromS.onExit with
  | none =>
    simp only [doTransitionF, hf, ht, hxo, h1, h2]
    exact doEnterF_ok_spec f { m with transitioning := true } toS _ record _ hb he
  | some hxb =>
    have hxr : hxb.result = true := by simpa [handlerOk, hxo] using hx
    simp only [doTransitionF, hf, ht, hxo, h1, h2,
      runTriggersF_busy f { m with transitioning := true } hxb.triggers hb, hxr, if_true]
    exact doEnterF_ok_spec f { m with transitioning := true } toS _ record _ hb he

/-! ## Abort paths -/

/-- Hook firings on a busy machine never contribute a trace entry outside the
image of `ev`. -/
theorem fireHookF_busy_all (f : Nat) (m : StateMachine) (hb : Option HookBeh)
    (ev : Nat → TraceEv) (p : TraceEv → Bool) (h : m.transitioning = true)
    (hp : ∀ g, p (ev g) = true) : ((fireHookF f m hb ev).2).all p = true := by
  rw [fireHookF_busy_snd f m hb ev h]
  cases hb <;> simp [hp]

/-- Enter failure (`done(false)` from the destination's `OnEnter`): the run
aborts with `current` and the history untouched, `transitioning` cleared,
`on_done(false)`, and neither `WhenTransitionFinished` nor any `OnAfter` in
the trace. -/
theorem doTransitionF_enterFail_spec (f : Nat) (m : StateMachine) (t : Transition)
    (record : Bool) (fromS toS : State) (heb : HandlerBeh)
    (hf : findState m t.«from» = some fromS)
    (ht : findState m t.«to» = some toS)
    (hx : handlerOk fromS.onExit = true)
    (heo : toS.onEnter = some heb) (her : heb.result = false) :
    (doTransitionF (f+1) m t record).ok = false ∧
    (doTransitionF (f+1) m t record).m.current = m.current ∧
    (doTransitionF (f+1) m t record).m.transitionHistory = m.transitionHistory ∧
    (doTransitionF (f+1) m t record).m.transitioning = false ∧
    (doTransitionF (f+1) m t record).tr.all noFinishNoAfter = true := by
  have hb : ({ m with transitioning := true } : StateMachine).transitioning = true := rfl
  have h1 : (fireHookF f { m with transitioning := true } m.whenTransitionStarted
      (fun g => TraceEv.started g (TransitionContext.mk t.«from» t.«to» t.event))).1 =
      { m with transitioning := true } := fireHookF_busy_fst f _ _ _ hb
  have h2 : (fireHookF f { m with transitioning := true } t.onBefore
      (fun g => TraceEv.before g (TransitionContext.mk t.«from» t.«to» t.event))).1 =
      { m with transitioning := true } := fireHookF_busy_fst f _ _ _ hb
  have ha1 : ((fireHookF f { m with transitioning := true } m.whenTransitionStarted
      (fun g => TraceEv.started g (TransitionContext.mk t.«from» t.«to» t.event))).2).all
      noFinishNoAfter = true :=
    fireHookF_busy_all f _ _ _ _ hb (fun g => rfl)
  have ha2 : ((fireHookF f { m with transitioning := true } t.onBefore
      (fun g => TraceEv.before g (TransitionContext.mk t.«from» t.«to» t.event))).2).all
      noFinishNoAfter = true :=
    fireHookF_busy_all f _ _ _ _ hb (fun g => rfl)
  cases hxo : fromS.onExit with
  | none =>
    simp only [doTransitionF, hf, ht, hxo, h1, h2, doEnterF, heo,
      runTriggersF_busy f { m with transitioning := true } heb.triggers hb, her]
    simp [List.all_append, ha1, ha2, noFinishNoAfter]
  | some hxb =>
    have hxr : hxb.result = true := by simpa [handlerOk, hxo] using hx
    simp only [doTransitionF, hf, ht, hxo, h1, h2,
      runTriggersF_busy f { m with transitioning := true } hxb.triggers hb, hxr, if_true,
      doEnterF, heo, her,
      runTriggersF_busy f { m with transitioning := true } heb.triggers hb]
    simp [List.all_append, ha1, ha2, noFinishNoAfter]

/-- Exit failure (`done(false)` from the source's `OnExit`): the run aborts
with `current` and the history untouched, `transitioning` cleared,
`on_done(false)`, and neither `WhenTransitionFinished` nor any `OnAfter` in
the trace. -/
theorem doTransitionF_exitFail_spec (f : Nat) (m : StateMachine) (t : Transition)
    (record : Bool) (fromS toS : State) (hxb : HandlerBeh)
    (hf : findState m t.«from» = some fromS)
    (ht : findState m t.«to» = some toS)
    (hxo : fromS.onExit = some hxb) (hxr : hxb.result = false) :
    (doTransitionF (f+1) m t record).ok = false ∧
    (doTransitionF (f+1) m t record).m.current = m.current ∧
    (doTransitionF (f+1) m t record).m.transitionHistory = m.transitionHistory ∧
    (doTransitionF (f+1) m t record).m.transitioning = false ∧
    (doTransitionF (f+1) m t record).tr.all noFinishNoAfter = true := by
  have hb : ({ m with transitioning := true } : StateMachine).transitioning = true := rfl
  have h1 : (fireHookF f { m with transitioning := true } m.whenTransitionStarted
      (fun g => TraceEv.started g (TransitionContext.mk t.«from» t.«to» t.event))).1 =
      { m with transitioning := true } := fireHookF_busy_fst f _ _ _ hb
  have h2 : (fireHookF f { m with transitioning := true } t.onBefore
      (fun g => TraceEv.before g (TransitionContext.mk t.«from» t.«to» t.event))).1 =
      { m with transitioning := true } := fireHookF_busy_fst f _ _ _ hb
  have ha1 : ((fireHookF f { m with transitioning := true } m.whenTransitionStarted
      (fun g => TraceEv.started g (TransitionContext.mk t.«from» t.«to» t.event))).2).all
      noFinishNoAfter = true :=
    fireHookF_busy_all f _ _ _ _ hb (fun g => rfl)
  have ha2 : ((fireHookF f { m with transitioning := true } t.onBefore
      (fun g => TraceEv.before g (TransitionContext.mk t.«from» t.«to» t.event))).2).all
      noFinishNoAfter = true :=
    fireHookF_busy_all f _ _ _ _ hb (fun g => rfl)
  simp only [doTransitionF, hf, ht, hxo,  h1, h2,
    runTriggersF_busy f { m with transitioning := true } hxb.triggers hb, hxr]
  simp [List.all_append, ha1, ha2, noFinishNoAfter]

/-! ## History shape of a pipeline run -/

/-- Any `DoTransition` run leaves the history either untouched (abort paths,
or `record = false`) or, only when `record` is set, replaced by the pruned
push of `Finalize`. -/
theorem doTransitionF_hist_record (fuel : Nat) (m : StateMachine) (t : Transition)
    (record : Bool) :
    (doTransitionF fuel m t record).m.transitionHistory = m.transitionHistory ∨
    (record = true ∧ (doTransitionF fuel m t record).m.transitionHistory =
      TransitionRecord.mk t.«from» t.«to» t.event ::
        pruneHistory m.transitionHistory t.«from») := by
  cases fuel with
  | zero => left; simp [doTransitionF]
  | succ f =>
    rcases hf : findState m t.«from» with _ | fromS
    · left; simp [doTransitionF, hf]
    rcases ht : findState m t.«to» with _ | toS
    · left; simp [doTransitionF, hf, ht]
    rcases hxo : fromS.onExit with _ | hxb
    · rcases heo : toS.onEnter with _ | heb
      · have h := doTransitionF_ok_spec f m t record fromS toS hf ht
          (by simp [handlerOk, hxo]) (by simp [handlerOk, heo])
        cases record with
        | false => exact Or.inl (by simpa using h.2.2.2.1)
        | true => exact Or.inr ⟨rfl, by simpa using h.2.2.2.1⟩
      · cases hr : heb.result with
        | false =>
          exact Or.inl (doTransitionF_enterFail_spec f m t record fromS toS heb hf ht
            (by simp [handlerOk, hxo]) heo hr).2.2.1
        | true =>
          have h := doTransitionF_ok_spec f m t record fromS toS hf ht
            (by simp [handlerOk, hxo]) (by simp [handlerOk, heo, hr])
          cases record with
          | false => exact Or.inl (by simpa using h.2.2.2.1)
          | true => exact Or.inr ⟨rfl, by simpa using h.2.2.2.1⟩
    · cases hxr : hxb.result with
      | false =>
        exact Or.inl (doTransitionF_exitFail_spec f m t record fromS toS hxb hf ht
          hxo hxr).2.2.1
      | true =>
        rcases heo : toS.onEnter with _ | heb
        · have h := doTransitionF_ok_spec f m t record fromS toS hf ht
            (by simp [handlerOk, hxo, hxr]) (by simp [handlerOk, heo])
          cases record with
          | false => exact Or.inl (by simpa using h.2.2.2.1)
          | true => exact Or.inr ⟨rfl, by simpa using h.2.2.2.1⟩
        · cases hr : heb.result with
          | false =>
            exact Or.inl (doTransitionF_enterFail_spec f m t record fromS toS heb hf ht
              (by simp [handlerOk, hxo, hxr]) heo hr).2.2.1
          | true =>
            have h := doTransitionF_ok_spec f m t record fromS toS hf ht
              (by simp [handlerOk, hxo, hxr]) (by simp [handlerOk, heo, hr])
            cases record with
            | false => exact Or.inl (by simpa using h.2.2.2.1)
            | true => exact Or.inr ⟨rfl, by simpa using h.2.2.2.1⟩

/-- A back transition (`record = false`) never rewrites the history inside
the pipeline; only `GoBack`'s own `on_done` pop touches it. -/
theorem doTransitionF_hist_norecord (fuel : Nat) (m : StateMachine) (t : Transition) :
    (doTransitionF fuel m t false).m.transitionHistory = m.transitionHistory := by
  rcases doTransitionF_hist_record fuel m t false with h | ⟨hc, _⟩
  · exact h
  · cases hc

/-! ## Preservation of a non-empty history -/

/-- A pipeline run keeps the history non-empty. -/
theorem doTransitionF_hist_pres (fuel : Nat) (m : StateMachine) (t : Transition)
    (record : Bool) (h : 1 ≤ m.transitionHistory.length) :
    1 ≤ (doTransitionF fuel m t record).m.transitionHistory.length := by
  rcases doTransitionF_hist_record fuel m t record with hu | ⟨_, hc⟩
  · rw [hu]; exact h
  · rw [hc]; simp

/-- `TriggerEvent` keeps the history non-empty. -/
theorem triggerEventF_hist_pres (fuel : Nat) (m : StateMachine) (e : String)
    (h : 1 ≤ m.transitionHistory.length) :
    1 ≤ (triggerEventF fuel m e).1.transitionHistory.length := by
  by_cases hb : m.transitioning = true
  · rw [triggerEventF_busy fuel m e hb]; exact h
  · have hbf : m.transitioning = false := by simpa using hb
    rcases hft : findTransition m m.current e with _ | t
    · simp only [triggerEventF, hbf, hft]; exact h
    · by_cases hg : guardBlocks t (TransitionContext.mk t.«from» t.«to» t.event) = true
      · simp only [triggerEventF, hbf, hft, hg]; exact h
      · have hgf : guardBlocks t (TransitionContext.mk t.«from» t.«to» t.event) = false := by
          simpa using hg
        simp only [triggerEventF, hbf, hft, hgf]
        simpa using doTransitionF_hist_pres fuel m t true h

/-- Reentrant trigger processing keeps the history non-empty. -/
theorem runTriggersF_hist_pres (fuel : Nat) (m : StateMachine) (es : List String)
    (h : 1 ≤ m.transitionHistory.length) :
    1 ≤ (runTriggersF fuel m es).1.transitionHistory.length := by
  induction es generalizing m with
  | nil => simpa [runTriggersF] using h
  | cons e rest ih =>
    simp only [runTriggersF]
    exact ih (triggerEventF fuel m e).1 (triggerEventF_hist_pres fuel m e h)

/-! ## GoBack -/

/-- When `GoBack` proceeds (depth > 1, not transitioning) and the synthesized
back transition succeeds, the machine lands in the `from` state of the popped
top record and the history is exactly the old history minus its top. -/
theorem goBackF_ok_spec (f : Nat) (m : StateMachine) (r : TransitionRecord)
    (rest : List TransitionRecord) (cs ts : State)
    (hh : m.transitionHistory = r :: rest) (hrest : rest ≠ [])
    (hb : m.transitioning = false)
    (hcs : findState m m.current = some cs)
    (hts : findState m r.«from» = some ts)
    (hx : handlerOk cs.onExit = true)
    (he : handlerOk ts.onEnter = true) :
    (goBackF (f+1) m).1.current = r.«from» ∧
    (goBackF (f+1) m).1.transitionHistory = rest := by
  have hlenr : 0 < rest.length := List.length_pos.mpr hrest
  have hcgb : canGoBack m = true := by
    simp only [canGoBack, hh, List.length_cons]
    simpa using by omega
  have hback : backTransitionOf m = Transition.mk "__back" m.current r.«from» none none none := by
    simp [backTransitionOf, hh]
  have hspec := doTransitionF_ok_spec f m (backTransitionOf m) false cs ts
    (by rw [hback]; exact hcs) (by rw [hback]; exact hts) hx he
  have hok : (doTransitionF (f+1) m (backTransitionOf m) false).ok = true := hspec.1
  have hcur : (doTransitionF (f+1) m (backTransitionOf m) false).m.current = r.«from» := by
    rw [hspec.2.1, hback]
  have hhist : (doTransitionF (f+1) m (backTransitionOf m) false).m.transitionHistory =
      r :: rest := by
    rw [doTransitionF_hist_norecord, hh]
  simp only [goBackF, hcgb, hb, Bool.not_true, Bool.false_or, if_neg (by simp : ¬ false = true),
    hok, if_pos rfl, hcur, hhist]
  exact ⟨rfl, rfl⟩

/-- `TryTransition` keeps the history non-empty. -/
theorem tryTransitionF_hist_pres (fuel : Nat) (m : StateMachine) (t : Transition)
    (h : 1 ≤ m.transitionHistory.length) :
    1 ≤ (tryTransitionF fuel m t).1.transitionHistory.length := by
  by_cases hb : m.transitioning = true
  · simp only [tryTransitionF, hb, if_pos rfl]; exact h
  · have hbf : m.transitioning = false := by simpa using hb
    by_cases hg : guardBlocks t (TransitionContext.mk t.«from» t.«to» t.event) = true
    · simp only [tryTransitionF, hbf, hg]; simpa using h
    · have hgf : guardBlocks t (TransitionContext.mk t.«from» t.«to» t.event) = false := by
        simpa using hg
      simp only [tryTransitionF, hbf, hgf]
      simpa using doTransitionF_hist_pres fuel m t true h

/-- `GoBack` keeps the history non-empty: the pop only happens at depth > 1. -/
theorem goBackF_hist_pres (fuel : Nat) (m : StateMachine)
    (h : 1 ≤ m.transitionHistory.length) :
    1 ≤ (goBackF fuel m).1.transitionHistory.length := by
  by_cases hcgb : canGoBack m = true
  · by_cases hb : m.transitioning = true
    · have hid : goBackF fuel m = (m, []) := by simp [goBackF, hb]
      rw [hid]; exact h
    · have hbf : m.transitioning = false := by simpa using hb
      have hdepth : 1 < m.transitionHistory.length := by
        simpa [canGoBack] using hcgb
      have hhist := doTransitionF_hist_norecord fuel m (backTransitionOf m)
      cases hok : (doTransitionF fuel m (backTransitionOf m) false).ok with
      | false =>
        have hsame : (goBackF fuel m).1.transitionHistory = m.transitionHistory := by
          simp [goBackF, hcgb, hbf, hok, hhist]
        rw [hsame]; exact h
      | true =>
        have htl : (goBackF fuel m).1.transitionHistory = m.transitionHistory.tail := by
          simp [goBackF, hcgb, hbf, hok, hhist]
        rw [htl, List.length_tail]
        omega
  · have hcgbf : canGoBack m = false := by simpa using hcgb
    have hid : goBackF fuel m = (m, []) := by simp [goBackF, hcgbf]
    rw [hid]; exact h

/-- `Start` pushes the bootstrap record, so the history it leaves behind is
non-empty whatever the initial `OnEnter` does. -/
theorem startF_hist_pres (fuel : Nat) (m : StateMachine) :
    1 ≤ (startF fuel m).1.transitionHistory.length := by
  have hm1 : 1 ≤ (TransitionRecord.mk "" m.initial "__start" ::
      m.transitionHistory).length := by simp
  rcases hfs : findState m m.initial with _ | s
  · simp only [startF, hfs]; simp
  · rcases hoe : s.onEnter with _ | hh
    · simp only [startF, hfs, hoe]; simp
    · simp only [startF, hfs, hoe]
      exact runTriggersF_hist_pres fuel _ hh.triggers (by simp)

/-! ## Which OnAfter fires -/

/-- Entries passing `noFinishNoAfter` are in particular not `OnAfter`
entries. -/
theorem all_noFinish_noAfter (l : List TraceEv) (h : l.all noFinishNoAfter = true) :
    l.all (fun x => !isAfterEv x) = true := by
  rw [List.all_eq_true] at h ⊢
  intro x hx
  have hm := h x hx
  cases x <;> simp [noFinishNoAfter, isAfterEv] at hm ⊢

/-- A trace with no `OnAfter` entries filters to the empty list. -/
theorem filter_after_nil (l : List TraceEv) (h : l.all (fun x => !isAfterEv x) = true) :
    l.filter isAfterEv = [] := by
  rw [List.all_eq_true] at h
  rw [List.filter_eq_nil_iff]
  intro x hx
  have hm := h x hx
  simp at hm
  simp [hm]

/-- A hook firing whose trace entries are not `OnAfter` filters away. -/
theorem fireHookF_busy_filter_nil (f : Nat) (m : StateMachine) (hb : Option HookBeh)
    (ev : Nat → TraceEv) (h : m.transitioning = true)
    (hp : ∀ g, isAfterEv (ev g) = false) :
    ((fireHookF f m hb ev).2).filter isAfterEv = [] := by
  apply filter_after_nil
  exact fireHookF_busy_all f m hb ev _ h (fun g => by simp [hp g])

/-- `finishF` with a successful fresh lookup fires exactly the looked-up
transition's `OnAfter`. -/
theorem finishF_after_filter (f : Nat) (m : StateMachine) (ctx : TransitionContext)
    (record : Bool) (acc : List TraceEv) (tp : Transition) (hb2 : HookBeh)
    (h : m.transitioning = true)
    (hft : findTransition m ctx.fromState ctx.event = some tp)
    (hao : tp.onAfter = some hb2)
    (hacc : acc.filter isAfterEv = []) :
    (finishF f m ctx record acc).tr.filter isAfterEv = [TraceEv.after hb2.tag ctx] := by
  have h1f : (fireHookF f m m.whenTransitionFinished (fun g => TraceEv.finished g ctx)).1 = m :=
    fireHookF_busy_fst f m _ _ h
  have h1n : ((fireHookF f m m.whenTransitionFinished
      (fun g => TraceEv.finished g ctx)).2).filter isAfterEv = [] :=
    fireHookF_busy_filter_nil f m _ _ h (fun g => rfl)
  have h2s : (fireHookF f m tp.onAfter (fun g => TraceEv.after g ctx)).2 =
      [TraceEv.after hb2.tag ctx] := by
    rw [fireHookF_busy_snd f m tp.onAfter _ h, hao]
  simp only [finishF, h1f, hft]
  simp [List.filter_append, hacc, h1n, h2s, isAfterEv]

/-- `finishF` whose fresh lookup misses fires no `OnAfter` at all. -/
theorem finishF_no_after (f : Nat) (m : StateMachine) (ctx : TransitionContext)
    (record : Bool) (acc : List TraceEv)
    (h : m.transitioning = true)
    (hft : findTransition m ctx.fromState ctx.event = none)
    (hacc : acc.all (fun x => !isAfterEv x) = true) :
    (finishF f m ctx record acc).tr.all (fun x => !isAfterEv x) = true := by
  have h1f : (fireHookF f m m.whenTransitionFinished (fun g => TraceEv.finished g ctx)).1 = m :=
    fireHookF_busy_fst f m _ _ h
  have h1n : ((fireHookF f m m.whenTransitionFinished
      (fun g => TraceEv.finished g ctx)).2).all (fun x => !isAfterEv x) = true :=
    fireHookF_busy_all f m _ _ _ h (fun g => rfl)
  simp only [finishF, h1f, hft]
  simp [List.all_append, hacc, h1n]

/-- Enter phase of a run whose fresh `(from, event)` lookup misses: no
`OnAfter` entry can appear. -/
theorem doEnterF_no_after (f : Nat) (m : StateMachine) (toS : State)
    (ctx : TransitionContext) (record : Bool) (acc : List TraceEv)
    (h : m.transitioning = true)
    (hft : findTransition m ctx.fromState ctx.event = none)
    (hacc : acc.all (fun x => !isAfterEv x) = true) :
    (doEnterF f m toS ctx record acc).tr.all (fun x => !isAfterEv x) = true := by
  cases heo : toS.onEnter with
  | none =>
    simp only [doEnterF, heo]
    exact finishF_no_after f { m with current := ctx.toState } ctx record acc
      (by simpa using h) (by simpa [findTransition] using hft) hacc
  | some heb =>
    have hacc2 : (acc ++ TraceEv.enterInvoked heb.tag :: ([] : List TraceEv)).all
        (fun x => !isAfterEv x) = true := by
      rw [List.all_append, hacc]
      simp [isAfterEv]
    cases her : heb.result with
    | true =>
      simp only [doEnterF, heo, runTriggersF_busy f m heb.triggers h, her, if_true]
      exact finishF_no_after f { m with current := ctx.toState } ctx record _
        (by simpa using h) (by simpa [findTransition] using hft) hacc2
    | false =>
      simp only [doEnterF, heo, runTriggersF_busy f m heb.triggers h, her]
      simpa using hacc2

/-- Enter phase of a successful run whose fresh lookup finds `tp` with an
`OnAfter`: exactly that one `OnAfter` entry appears. -/
theorem doEnterF_after_filter (f : Nat) (m : StateMachine) (toS : State)
    (ctx : TransitionContext) (record : Bool) (acc : List TraceEv)
    (tp : Transition) (hb2 : HookBeh)
    (h : m.transitioning = true)
    (he : handlerOk toS.onEnter = true)
    (hft : findTransition m ctx.fromState ctx.event = some tp)
    (hao : tp.onAfter = some hb2)
    (hacc : acc.filter isAfterEv = []) :
    (doEnterF f m toS ctx record acc).tr.filter isAfterEv =
      [TraceEv.after hb2.tag ctx] := by
  cases heo : toS.onEnter with
  | none =>
    simp only [doEnterF, heo]
    exact finishF_after_filter f { m with current := ctx.toState } ctx record acc tp hb2
      (by simpa using h) (by simpa [findTransition] using hft) hao hacc
  | some heb =>
    have her : heb.result = true := by simpa [handlerOk, heo] using he
    have hacc2 : (acc ++ TraceEv.enterInvoked heb.tag :: ([] : List TraceEv)).filter
        isAfterEv = [] := by
      rw [List.filter_append, hacc]
      simp [isAfterEv]
    simp only [doEnterF, heo, runTriggersF_busy f m heb.triggers h, her, if_true]
    exact finishF_after_filter f { m with current := ctx.toState } ctx record _ tp hb2
      (by simpa using h) (by simpa [findTransition] using hft) hao hacc2

/-- A `DoTransition` run whose `(from, event)` pair is not registered fires
no `OnAfter` whatsoever — in particular never the descriptor's own. -/
theorem doTransitionF_no_after (fuel : Nat) (m : StateMachine) (t : Transition)
    (record : Bool)
    (hft : findTransition m t.«from» t.event = none) :
    (doTransitionF fuel m t record).tr.all (fun x => !isAfterEv x) = true := by
  cases fuel with
  | zero => simp [doTransitionF]
  | succ f =>
    rcases hf : findState m t.«from» with _ | fromS
    · simp [doTransitionF, hf]
    rcases ht : findState m t.«to» with _ | toS
    · simp [doTransitionF, hf, ht]
    have hb : ({ m with transitioning := true } : StateMachine).transitioning = true := rfl
    have h1 : (fireHookF f { m with transitioning := true } m.whenTransitionStarted
        (fun g => TraceEv.started g (TransitionContext.mk t.«from» t.«to» t.event))).1 =
        { m with transitioning := true } := fireHookF_busy_fst f _ _ _ hb
    have h2 : (fireHookF f { m with transitioning := true } t.onBefore
        (fun g => TraceEv.before g (TransitionContext.mk t.«from» t.«to» t.event))).1 =
        { m with transitioning := true } := fireHookF_busy_fst f _ _ _ hb
    have ha1 : ((fireHookF f { m with transitioning := true } m.whenTransitionStarted
        (fun g => TraceEv.started g (TransitionContext.mk t.«from» t.«to» t.event))).2).all
        (fun x => !isAfterEv x) = true :=
      fireHookF_busy_all f _ _ _ _ hb (fun g => rfl)
    have ha2 : ((fireHookF f { m with transitioning := true } t.onBefore
        (fun g => TraceEv.before g (TransitionContext.mk t.«from» t.«to» t.event))).2).all
        (fun x => !isAfterEv x) = true :=
      fireHookF_busy_all f _ _ _ _ hb (fun g => rfl)
    cases hxo : fromS.onExit with
    | none =>
      simp only [doTransitionF, hf, ht, hxo, h1, h2]
      exact doEnterF_no_after f { m with transitioning := true } toS _ record _
        hb (by simpa [findTransition] using hft)
        (by simp only [List.all_append, ha1, ha2]; simp)
    | some hxb =>
      cases hxr : hxb.result with
      | false =>
        exact all_noFinish_noAfter _
          (doTransitionF_exitFail_spec f m t record fromS toS hxb hf ht hxo hxr).2.2.2.2
      | true =>
        simp only [doTransitionF, hf, ht, hxo, h1, h2,
          runTriggersF_busy f { m with transitioning := true } hxb.triggers hb, hxr, if_true]
        exact doEnterF_no_after f { m with transitioning := true } toS _ record _
          hb (by simpa [findTransition] using hft)
          (by simp only [List.all_append, ha1, ha2]; simp [isAfterEv])

/-- A successful `DoTransition` run fires exactly the `OnAfter` of the
transition found by the fresh `(from, event)` lookup. -/
theorem doTransitionF_after_filter (f : Nat) (m : StateMachine) (t : Transition)
    (record : Bool) (fromS toS : State) (tp : Transition) (hb2 : HookBeh)
    (hf : findState m t.«from» = some fromS)
    (ht : findState m t.«to» = some toS)
    (hx : handlerOk fromS.onExit = true)
    (he : handlerOk toS.onEnter = true)
    (hft : findTransition m t.«from» t.event = some tp)
    (hao : tp.onAfter = some hb2) :
    (doTransitionF (f+1) m t record).tr.filter isAfterEv =
      [TraceEv.after hb2.tag (TransitionContext.mk t.«from» t.«to» t.event)] := by
  have hb : ({ m with transitioning := true } : StateMachine).transitioning = true := rfl
  have h1 : (fireHookF f { m with transitioning := true } m.whenTransitionStarted
      (fun g => TraceEv.started g (TransitionContext.mk t.«from» t.«to» t.event))).1 =
      { m with transitioning := true } := fireHookF_busy_fst f _ _ _ hb
  have h2 : (fireHookF f { m with transitioning := true } t.onBefore
      (fun g => TraceEv.before g (TransitionContext.mk t.«from» t.«to» t.event))).1 =
      { m with transitioning := true } := fireHookF_busy_fst f _ _ _ hb
  have hn1 : ((fireHookF f { m with transitioning := true } m.whenTransitionStarted
      (fun g => TraceEv.started g (TransitionContext.mk t.«from» t.«to» t.event))).2).filter
      isAfterEv = [] :=
    fireHookF_busy_filter_nil f _ _ _ hb (fun g => rfl)
  have hn2 : ((fireHookF f { m with transitioning := true } t.onBefore
      (fun g => TraceEv.before g (TransitionContext.mk t.«from» t.«to» t.event))).2).filter
      isAfterEv = [] :=
    fireHookF_busy_filter_nil f _ _ _ hb (fun g => rfl)
  cases hxo : fromS.onExit with
  | none =>
    simp only [doTransitionF, hf, ht, hxo, h1, h2]
    exact doEnterF_after_filter f { m with transitioning := true } toS _ record _ tp hb2
      hb he (by simpa [findTransition] using hft) hao
      (by simp only [List.filter_append, hn1, hn2]; simp)
  | some hxb =>
    have hxr : hxb.result = true := by simpa [handlerOk, hxo] using hx
    simp only [doTransitionF, hf, ht, hxo, h1, h2,
      runTriggersF_busy f { m with transitioning := true } hxb.triggers hb, hxr, if_true]
    exact doEnterF_after_filter f { m with transitioning := true } toS _ record _ tp hb2
      hb he (by simpa [findTransition] using hft) hao
      (by simp only [List.filter_append, hn1, hn2]; simp [isAfterEv])

/-- When the history top's `to` already names the transition's `from`, the
pruning loop of `Finalize` stops immediately. -/
theorem pruneHistory_top_match (hist : List TransitionRecord) (f : String)
    (h : hist.head?.all (fun rc => rc.«to» == f) = true) :
    pruneHistory hist f = hist := by
  cases hist with
  | nil => rfl
  | cons r rest =>
    have heq : (r.«to» == f) = true := by simpa using h
    have hne : (r.«to» != f) = false := by simp [bne, heq]
    simp [pruneHistory, hne]

/-! ## Concrete fixtures for witnesses and counterexamples -/

/-- Plain state with no handlers. -/
def stA : State := State.mk "A" none none

/-- Plain state with no handlers. -/
def stB : State := State.mk "B" none none

/-- Plain state with no handlers. -/
def stC : State := State.mk "C" none none

/-- State whose `OnEnter` completes with `done(false)`. -/
def stDFail : State := State.mk "D" (some (HandlerBeh.mk 5 [] false)) none

/-- State whose `OnExit` completes with `done(false)`. -/
def stEFail : State := State.mk "E" none (some (HandlerBeh.mk 6 [] false))

/-- Registered transition `A --go--> B`. -/
def tGo : Transition := Transition.mk "go" "A" "B" none none none

/-- Descriptor `B --e--> C`, not registered anywhere. -/
def tBC : Transition := Transition.mk "e" "B" "C" none none none

/-- Descriptor into the enter-failing state. -/
def tAD : Transition := Transition.mk "go" "A" "D" none none none

/-- Descriptor out of the exit-failing state. -/
def tEB : Transition := Transition.mk "go" "E" "B" none none none

/-- Started machine sitting in `"A"` with states `A`, `B`, `C` registered and
no transitions: `TryTransition` descriptors are its only way to move. -/
def mPrune : StateMachine := StateMachine.mk [stA, stB, stC] []
  [TransitionRecord.mk "" "A" "__start"] "A" "A" false none none

/-- Started machine `A --go--> B` sitting in `"A"`. -/
def mA : StateMachine := StateMachine.mk [stA, stB] [tGo]
  [TransitionRecord.mk "" "A" "__start"] "A" "A" false none none

/-- The machine `mA` while a transition is in flight. -/
def mBusy : StateMachine := StateMachine.mk [stA, stB] [tGo]
  [TransitionRecord.mk "" "A" "__start"] "A" "A" true none none

/-- Machine with enter-failing destination `D` registered. -/
def mEnterFail : StateMachine := StateMachine.mk [stA, stDFail] [tAD]
  [TransitionRecord.mk "" "A" "__start"] "A" "A" false none none

/-- Machine sitting in the exit-failing state `E`. -/
def mExitFail : StateMachine := StateMachine.mk [stEFail, stB] [tEB]
  [TransitionRecord.mk "" "E" "__start"] "E" "E" false none none

/-- Machine that walked `A → B → C`: history top is `(B, C, e2)`, below it
`(A, B, e1)`, bottom the bootstrap record. -/
def mBack : StateMachine := StateMachine.mk [stA, stB, stC] []
  [TransitionRecord.mk "B" "C" "e2", TransitionRecord.mk "A" "B" "e1",
   TransitionRecord.mk "" "A" "__start"] "C" "A" false none none

/-- Never-started machine (empty history). -/
def mFresh : StateMachine := StateMachine.mk [stA, stB] [tGo] [] "" "A" false none none

/-! ## Claims -/

/-- Claim C1: for every executed transition whose exit phase succeeds but
whose destination state's `OnEnter` handler completes with `done(false)`,
the current state is left unchanged (so `GetCurrent()` still names the
source state the machine was in), the history stack is not mutated, and
neither `WhenTransitionFinished` nor any transition's `OnAfter` fires. -/
theorem claim_C1_enter_failure_aborts (f : Nat) (m : StateMachine) (t : Transition)
    (record : Bool) (fromS toS : State) (heb : HandlerBeh)
    (hf : findState m t.«from» = some fromS)
    (ht : findState m t.«to» = some toS)
    (hx : handlerOk fromS.onExit = true)
    (heo : toS.onEnter = some heb) (her : heb.result = false) :
    (doTransitionF (f+1) m t record).m.current = m.current ∧
    (doTransitionF (f+1) m t record).m.transitionHistory = m.transitionHistory ∧
    (doTransitionF (f+1) m t record).tr.all noFinishNoAfter = true := by
  have h := doTransitionF_enterFail_spec f m t record fromS toS heb hf ht hx heo her
  exact ⟨h.2.1, h.2.2.1, h.2.2.2.2⟩

/-- Witness for C1 on `mEnterFail`: `A --go--> D` where `D.OnEnter` fails. -/
theorem claim_C1_witness :
    (doTransitionF 1 mEnterFail tAD true).m.current = mEnterFail.current ∧
    (doTransitionF 1 mEnterFail tAD true).m.transitionHistory =
      mEnterFail.transitionHistory ∧
    (doTransitionF 1 mEnterFail tAD true).tr.all noFinishNoAfter = true :=
  claim_C1_enter_failure_aborts 0 mEnterFail tAD true stA stDFail
    (HandlerBeh.mk 5 [] false) rfl rfl rfl rfl rfl

/-- Claim C4: when the source state's `OnExit` completes with `done(false)`,
the transition aborts: current state unchanged, no history entry recorded,
neither `OnAfter` nor `WhenTransitionFinished` fires, `transitioning` is
cleared once the pipeline returns, and `on_done` receives `false`. -/
theorem claim_C4_exit_failure_aborts (f : Nat) (m : StateMachine) (t : Transition)
    (record : Bool) (fromS toS : State) (hxb : HandlerBeh)
    (hf : findState m t.«from» = some fromS)
    (ht : findState m t.«to» = some toS)
    (hxo : fromS.onExit = some hxb) (hxr : hxb.result = false) :
    (doTransitionF (f+1) m t record).m.current = m.current ∧
    (doTransitionF (f+1) m t record).m.transitionHistory = m.transitionHistory ∧
    (doTransitionF (f+1) m t record).tr.all noFinishNoAfter = true ∧
    (doTransitionF (f+1) m t record).m.transitioning = false ∧
    (doTransitionF (f+1) m t record).ok = false := by
  have h := doTransitionF_exitFail_spec f m t record fromS toS hxb hf ht hxo hxr
  exact ⟨h.2.1, h.2.2.1, h.2.2.2.2, h.2.2.2.1, h.1⟩

/-- Witness for C4 on `mExitFail`: `E --go--> B` where `E.OnExit` fails. -/
theorem claim_C4_witness :
    (doTransitionF 1 mExitFail tEB true).m.current = mExitFail.current ∧
    (doTransitionF 1 mExitFail tEB true).m.transitionHistory =
      mExitFail.transitionHistory ∧
    (doTransitionF 1 mExitFail tEB true).tr.all noFinishNoAfter = true ∧
    (doTransitionF 1 mExitFail tEB true).m.transitioning = false ∧
    (doTransitionF 1 mExitFail tEB true).ok = false :=
  claim_C4_exit_failure_aborts 0 mExitFail tEB true stEFail stB
    (HandlerBeh.mk 6 [] false) rfl rfl rfl rfl

/-- Claim C5: while `IsTransitioning()` is true, every `TriggerEvent` call is
dropped — the machine (current state and history included) is unchanged and
no pipeline trace is produced; this covers in particular the reentrant
`TriggerEvent` calls a handler or hook of the in-flight transition issues,
which the pipeline routes through `runTriggersF` on the busy machine. -/
theorem claim_C5_busy_trigger_dropped :
    (∀ f (m : StateMachine) e, m.transitioning = true →
      triggerEventF f m e = (m, [])) ∧
    (∀ f (m : StateMachine) es, m.transitioning = true →
      runTriggersF f m es = (m, [])) :=
  ⟨triggerEventF_busy, runTriggersF_busy⟩

/-- Witness for C5 on the busy machine `mBusy`. -/
theorem claim_C5_witness :
    triggerEventF 3 mBusy "go" = (mBusy, []) ∧
    runTriggersF 2 mBusy ["go", "go"] = (mBusy, []) :=
  ⟨claim_C5_busy_trigger_dropped.1 3 mBusy "go" rfl,
   claim_C5_busy_trigger_dropped.2 2 mBusy ["go", "go"] rfl⟩

/-- Claim C7: `Start()` leaves a non-empty history, and each public
operation — `TriggerEvent`, `TryTransition`, `GoBack` — run with its
handlers to completion preserves history depth at least 1 (the pruning loop
of `Finalize` is always followed by a push, and `GoBack` only pops at
depth > 1). -/
theorem claim_C7_history_never_empty :
    (∀ f (m : StateMachine), 1 ≤ (startF f m).1.transitionHistory.length) ∧
    (∀ f (m : StateMachine) e, 1 ≤ m.transitionHistory.length →
      1 ≤ (triggerEventF f m e).1.transitionHistory.length) ∧
    (∀ f (m : StateMachine) t, 1 ≤ m.transitionHistory.length →
      1 ≤ (tryTransitionF f m t).1.transitionHistory.length) ∧
    (∀ f (m : StateMachine), 1 ≤ m.transitionHistory.length →
      1 ≤ (goBackF f m).1.transitionHistory.length) :=
  ⟨startF_hist_pres, triggerEventF_hist_pres, tryTransitionF_hist_pres, goBackF_hist_pres⟩

/-- Witness for C7: the four parts at concrete machines. -/
theorem claim_C7_witness :
    1 ≤ (startF 1 mFresh).1.transitionHistory.length ∧
    1 ≤ (triggerEventF 1 mA "go").1.transitionHistory.length ∧
    1 ≤ (tryTransitionF 1 mPrune tBC).1.transitionHistory.length ∧
    1 ≤ (goBackF 1 mBack).1.transitionHistory.length :=
  ⟨claim_C7_history_never_empty.1 1 mFresh,
   claim_C7_history_never_empty.2.1 1 mA "go" (by decide),
   claim_C7_history_never_empty.2.2.1 1 mPrune tBC (by decide),
   claim_C7_history_never_empty.2.2.2 1 mBack (by decide)⟩

/-- Claim C8: a `TriggerEvent`-dispatched transition whose guard returns
false is a silent no-op (machine unchanged, nothing fires); the same
dispatch with the guard returning true and synchronously succeeding exit and
enter handlers moves `GetCurrent()` to the destination state. -/
theorem claim_C8_guard_gate :
    (∀ f (m : StateMachine) e t g, m.transitioning = false →
      findTransition m m.current e = some t →
      t.guard = some g →
      g (TransitionContext.mk t.«from» t.«to» t.event) = false →
      triggerEventF f m e = (m, [])) ∧
    (∀ f (m : StateMachine) e t g fromS toS, m.transitioning = false →
      findTransition m m.current e = some t →
      t.guard = some g →
      g (TransitionContext.mk t.«from» t.«to» t.event) = true →
      findState m t.«from» = some fromS →
      findState m t.«to» = some toS →
      handlerOk fromS.onExit = true →
      handlerOk toS.onEnter = true →
      (triggerEventF (f+1) m e).1.current = t.«to») := by
  constructor
  · intro f m e t g hb hft hg hgv
    have hgb : guardBlocks t (TransitionContext.mk t.«from» t.«to» t.event) = true := by
      simp [guardBlocks, hg, hgv]
    simp [triggerEventF, hb, hft, hgb]
  · intro f m e t g fromS toS hb hft hg hgv hf2 ht2 hx he
    have hgb : guardBlocks t (TransitionContext.mk t.«from» t.«to» t.event) = false := by
      simp [guardBlocks, hg, hgv]
    have hred : triggerEventF (f+1) m e =
        ((doTransitionF (f+1) m t true).m, (doTransitionF (f+1) m t true).tr) := by
      simp [triggerEventF, hb, hft, hgb]
    rw [hred]
    exact (doTransitionF_ok_spec f m t true fromS toS hf2 ht2 hx he).2.1

/-- Rejecting guard used by the C8 witness. -/
def tGuardOff : Transition :=
  Transition.mk "start" "A" "B" (some (fun _ => false)) none none

/-- Accepting guard used by the C8 witness. -/
def tGuardOn : Transition :=
  Transition.mk "start" "A" "B" (some (fun _ => true)) none none

/-- Machine whose only transition has a rejecting guard. -/
def mGuardOff : StateMachine := StateMachine.mk [stA, stB] [tGuardOff]
  [TransitionRecord.mk "" "A" "__start"] "A" "A" false none none

/-- Machine whose only transition has an accepting guard. -/
def mGuardOn : StateMachine := StateMachine.mk [stA, stB] [tGuardOn]
  [TransitionRecord.mk "" "A" "__start"] "A" "A" false none none

/-- Witness for C8: guard false keeps the machine put, guard true moves it. -/
theorem claim_C8_witness :
    triggerEventF 1 mGuardOff "start" = (mGuardOff, []) ∧
    (triggerEventF 1 mGuardOn "start").1.current = "B" :=
  ⟨claim_C8_guard_gate.1 1 mGuardOff "start" tGuardOff (fun _ => false)
      rfl rfl rfl rfl,
   claim_C8_guard_gate.2 0 mGuardOn "start" tGuardOn (fun _ => true) stA stB
      rfl rfl rfl rfl rfl rfl rfl rfl⟩

/-- Claim C9: `TryTransition` never compares the descriptor's `from` against
the current state: whenever the machine is idle, the guard passes, both named
states are registered and their handlers succeed synchronously, the call
returns `true` and `GetCurrent()` becomes the descriptor's `to` — no
hypothesis relates `t.from` to `m.current`. -/
theorem claim_C9_tryTransition_ignores_current (f : Nat) (m : StateMachine)
    (t : Transition) (fromS toS : State)
    (hb : m.transitioning = false)
    (hg : guardBlocks t (TransitionContext.mk t.«from» t.«to» t.event) = false)
    (hf : findState m t.«from» = some fromS)
    (ht : findState m t.«to» = some toS)
    (hx : handlerOk fromS.onExit = true)
    (he : handlerOk toS.onEnter = true) :
    (tryTransitionF (f+1) m t).2.1 = true ∧
    (tryTransitionF (f+1) m t).1.current = t.«to» := by
  have hred : tryTransitionF (f+1) m t =
      ((doTransitionF (f+1) m t true).m, true, (doTransitionF (f+1) m t true).tr) := by
    simp [tryTransitionF, hb, hg]
  rw [hred]
  exact ⟨rfl, (doTransitionF_ok_spec f m t true fromS toS hf ht hx he).2.1⟩

/-- Witness for C9 on `mPrune`: the machine sits in `"A"` yet the descriptor
`B --e--> C` is accepted and lands the machine in `"C"`. -/
theorem claim_C9_witness :
    mPrune.current = "A" ∧ tBC.«from» = "B" ∧
    (tryTransitionF 1 mPrune tBC).2.1 = true ∧
    (tryTransitionF 1 mPrune tBC).1.current = "C" :=
  ⟨rfl, rfl,
   (claim_C9_tryTransition_ignores_current 0 mPrune tBC stB stC rfl rfl rfl rfl rfl rfl).1,
   (claim_C9_tryTransition_ignores_current 0 mPrune tBC stB stC rfl rfl rfl rfl rfl rfl).2⟩

/-- Claim C6: `GoBack()` is a strict no-op at history depth at most 1 or
while transitioning; when it proceeds and the back transition succeeds,
nothing is pushed and exactly the top record is popped — the new history is
the old one's tail, one entry shorter. -/
theorem claim_C6_goBack_pops_one :
    (∀ f (m : StateMachine), m.transitionHistory.length ≤ 1 →
      goBackF f m = (m, [])) ∧
    (∀ f (m : StateMachine), m.transitioning = true →
      goBackF f m = (m, [])) ∧
    (∀ f (m : StateMachine) r rest cs ts,
      m.transitionHistory = r :: rest → rest ≠ [] →
      m.transitioning = false →
      findState m m.current = some cs →
      findState m r.«from» = some ts →
      handlerOk cs.onExit = true →
      handlerOk ts.onEnter = true →
      (goBackF (f+1) m).1.transitionHistory = rest ∧
      (goBackF (f+1) m).1.transitionHistory.length =
        m.transitionHistory.length - 1) := by
  refine ⟨?p1, ?p2, ?p3⟩
  · intro f m hlen
    have hcgb : canGoBack m = false := by
      simp only [canGoBack]
      simpa using by omega
    simp [goBackF, hcgb]
  · intro f m hb
    simp [goBackF, hb]
  · intro f m r rest cs ts hh hrest hb hcs hts hx he
    have hpop := (goBackF_ok_spec f m r rest cs ts hh hrest hb hcs hts hx he).2
    refine ⟨hpop, ?len⟩
    rw [hpop, hh]
    simp

/-- Witness for C6: the no-op gates on `mA` (depth 1) and `mBusy`, and one
successful pop on `mBack`. -/
theorem claim_C6_witness :
    goBackF 1 mA = (mA, []) ∧
    goBackF 1 mBusy = (mBusy, []) ∧
    (goBackF 1 mBack).1.transitionHistory =
      [TransitionRecord.mk "A" "B" "e1", TransitionRecord.mk "" "A" "__start"] ∧
    (goBackF 1 mBack).1.transitionHistory.length =
      mBack.transitionHistory.length - 1 :=
  ⟨claim_C6_goBack_pops_one.1 1 mA (by decide),
   claim_C6_goBack_pops_one.2.1 1 mBusy rfl,
   (claim_C6_goBack_pops_one.2.2 0 mBack (TransitionRecord.mk "B" "C" "e2")
      [TransitionRecord.mk "A" "B" "e1", TransitionRecord.mk "" "A" "__start"]
      stC stB rfl (by decide) rfl rfl rfl rfl rfl).1,
   (claim_C6_goBack_pops_one.2.2 0 mBack (TransitionRecord.mk "B" "C" "e2")
      [TransitionRecord.mk "A" "B" "e1", TransitionRecord.mk "" "A" "__start"]
      stC stB rfl (by decide) rfl rfl rfl rfl rfl).2⟩

/-- Claim C3 as amended: the destination of the back transition `GoBack`
synthesizes is the `from` field of the TOP history entry (the record that is
popped on success) — equivalently, under the chained-history invariant, the
`to` field of the entry below it — and a successful `GoBack` lands there. -/
theorem claim_C3_amended_back_target (f : Nat) (m : StateMachine)
    (r : TransitionRecord) (rest : List TransitionRecord) (cs ts : State)
    (hh : m.transitionHistory = r :: rest) (hrest : rest ≠ [])
    (hb : m.transitioning = false)
    (hcs : findState m m.current = some cs)
    (hts : findState m r.«from» = some ts)
    (hx : handlerOk cs.onExit = true)
    (he : handlerOk ts.onEnter = true) :
    (backTransitionOf m).«to» = r.«from» ∧
    (goBackF (f+1) m).1.current = r.«from» := by
  refine ⟨by simp [backTransitionOf, hh], ?goal⟩
  exact (goBackF_ok_spec f m r rest cs ts hh hrest hb hcs hts hx he).1

/-- Witness for the amended C3 on `mBack`: the popped top is `(B, C, e2)`,
so `GoBack` targets and reaches `"B"`. -/
theorem claim_C3_amended_witness :
    (backTransitionOf mBack).«to» = "B" ∧ (goBackF 1 mBack).1.current = "B" :=
  claim_C3_amended_back_target 0 mBack (TransitionRecord.mk "B" "C" "e2")
    [TransitionRecord.mk "A" "B" "e1", TransitionRecord.mk "" "A" "__start"]
    stC stB rfl (by decide) rfl rfl rfl rfl rfl

/-- Counterexample to C3 as stated: on `mBack`, the entry immediately below
the top has `from = "A"`, yet the synthesized back transition targets `"B"`
(the `from` of the top entry) and the machine lands in `"B"`, not `"A"`. -/
theorem claim_C3_counterexample :
    (mBack.transitionHistory.get? 1).map (fun rc => rc.«from») = some "A" ∧
    (backTransitionOf mBack).«to» = "B" ∧
    (goBackF 1 mBack).1.current = "B" ∧
    ¬ (goBackF 1 mBack).1.current = "A" := by
  have hcur : (goBackF 1 mBack).1.current = "B" := by
    simp [goBackF, backTransitionOf, canGoBack, doTransitionF, doEnterF, finishF,
      fireHookF, runTriggersF, findState, findTransition, finalize, pruneHistory,
      mBack, stA, stB, stC, List.find?]
  exact ⟨rfl, rfl, hcur, by rw [hcur]; decide⟩

/-- Claim C2 as amended: a successful recorded transition grows the history
by exactly 1 — and `CanGoBack()` becomes true — provided the history top's
`to` field names the transition's `from` state (always the case for a
`TriggerEvent`-dispatched transition when the top records how the machine
reached `current`); otherwise `Finalize`'s pruning loop may first discard
entries, so the depth need not grow. -/
theorem claim_C2_amended_depth_plus_one (f : Nat) (m : StateMachine) (t : Transition)
    (fromS toS : State)
    (hf : findState m t.«from» = some fromS)
    (ht : findState m t.«to» = some toS)
    (hx : handlerOk fromS.onExit = true)
    (he : handlerOk toS.onEnter = true)
    (hlen : 1 ≤ m.transitionHistory.length)
    (htop : m.transitionHistory.head?.all (fun rc => rc.«to» == t.«from») = true) :
    (doTransitionF (f+1) m t true).m.transitionHistory.length =
      m.transitionHistory.length + 1 ∧
    canGoBack (doTransitionF (f+1) m t true).m = true := by
  have hh := (doTransitionF_ok_spec f m t true fromS toS hf ht hx he).2.2.2.1
  rw [if_pos rfl, pruneHistory_top_match m.transitionHistory t.«from» htop] at hh
  have hlen2 : (doTransitionF (f+1) m t true).m.transitionHistory.length =
      m.transitionHistory.length + 1 := by rw [hh]; simp
  refine ⟨hlen2, ?cgb⟩
  simp only [canGoBack, hlen2]
  simpa using by omega

/-- Witness for the amended C2 on `mA`: `A --go--> B` grows the history from
depth 1 to depth 2 and enables `CanGoBack()`. -/
theorem claim_C2_witness :
    (doTransitionF 1 mA tGo true).m.transitionHistory.length =
      mA.transitionHistory.length + 1 ∧
    canGoBack (doTransitionF 1 mA tGo true).m = true :=
  claim_C2_amended_depth_plus_one 0 mA tGo stA stB rfl rfl rfl rfl
    (by decide) rfl

/-- Counterexample to C2 as stated: on `mPrune` (depth 1, current `"A"`) the
descriptor `B --e--> C` is accepted by `TryTransition`, both phases succeed
(`on_done(true)`), yet `Finalize`'s pruning loop empties the stack before
the push, so the depth stays 1 instead of becoming 2 and `CanGoBack()` stays
false. -/
theorem claim_C2_counterexample :
    (doTransitionF 1 mPrune tBC true).ok = true ∧
    mPrune.transitionHistory.length = 1 ∧
    (tryTransitionF 1 mPrune tBC).2.1 = true ∧
    (tryTransitionF 1 mPrune tBC).1.transitionHistory.length = 1 ∧
    canGoBack (tryTransitionF 1 mPrune tBC).1 = false := by
  refine ⟨?ok, rfl, ?acc, ?len, ?cgb⟩ <;>
    simp [tryTransitionF, doTransitionF, doEnterF, finishF, fireHookF, runTriggersF,
      findState, findTransition, finalize, pruneHistory, guardBlocks, canGoBack,
      mPrune, tBC, stA, stB, stC, List.find?]

/-- Claim C10: the `OnAfter` that fires on a successful run is the one of the
first registered transition matching `(from, event)` found by a fresh lookup
at completion time, never the descriptor's own hook: a run whose
`(from, event)` is unregistered fires no `OnAfter` at all (whatever the
descriptor carries), a successful run whose lookup finds `tp` fires exactly
`tp`'s `OnAfter`, and `GoBack`'s `"__back"` runs fire no `OnAfter` unless
such a transition is registered. -/
theorem claim_C10_fresh_after_lookup :
    (∀ fuel (m : StateMachine) t record,
      findTransition m t.«from» t.event = none →
      (doTransitionF fuel m t record).tr.all (fun x => !isAfterEv x) = true) ∧
    (∀ f (m : StateMachine) t record fromS toS tp hb2,
      findState m t.«from» = some fromS →
      findState m t.«to» = some toS →
      handlerOk fromS.onExit = true →
      handlerOk toS.onEnter = true →
      findTransition m t.«from» t.event = some tp →
      tp.onAfter = some hb2 →
      (doTransitionF (f+1) m t record).tr.filter isAfterEv =
        [TraceEv.after hb2.tag (TransitionContext.mk t.«from» t.«to» t.event)]) ∧
    (∀ f (m : StateMachine),
      findTransition m m.current "__back" = none →
      (goBackF f m).2.all (fun x => !isAfterEv x) = true) := by
  refine ⟨doTransitionF_no_after, doTransitionF_after_filter, ?back⟩
  intro f m hft
  by_cases hc : (!canGoBack m || m.transitioning) = true
  · simp [goBackF, hc]
  · have hcf : (!canGoBack m || m.transitioning) = false := by simpa using hc
    have hft2 : findTransition m (backTransitionOf m).«from»
        (backTransitionOf m).event = none := by
      simpa [backTransitionOf] using hft
    have hall := doTransitionF_no_after f m (backTransitionOf m) false hft2
    cases hok : (doTransitionF f m (backTransitionOf m) false).ok with
    | true => simp [goBackF, hcf, hok, hall]
    | false => simp [goBackF, hcf, hok, hall]

/-- Registered `A --go--> B` carrying the `OnAfter` with tag 7. -/
def tRegAfter : Transition :=
  Transition.mk "go" "A" "B" none none (some (HookBeh.mk 7 []))

/-- Machine whose registry holds `tRegAfter`. -/
def mAfter : StateMachine := StateMachine.mk [stA, stB] [tRegAfter]
  [TransitionRecord.mk "" "A" "__start"] "A" "A" false none none

/-- Descriptor for the same `(from, event)` but carrying its OWN `OnAfter`
with tag 99 — which must never fire. -/
def tDescAfter : Transition :=
  Transition.mk "go" "A" "B" none none (some (HookBeh.mk 99 []))

/-- Witness for C10: executing the descriptor with `OnAfter` tag 99 fires
exactly the registered hook with tag 7; a run with an unregistered
`(from, event)` and a `"__back"` run fire no `OnAfter`. -/
theorem claim_C10_witness :
    (doTransitionF 1 mAfter tDescAfter true).tr.filter isAfterEv =
      [TraceEv.after 7 (TransitionContext.mk "A" "B" "go")] ∧
    (doTransitionF 1 mPrune tBC true).tr.all (fun x => !isAfterEv x) = true ∧
    (goBackF 1 mBack).2.all (fun x => !isAfterEv x) = true :=
  ⟨claim_C10_fresh_after_lookup.2.1 0 mAfter tDescAfter true stA stB tRegAfter
      (HookBeh.mk 7 []) rfl rfl rfl rfl rfl rfl,
   claim_C10_fresh_after_lookup.1 1 mPrune tBC true rfl,
   claim_C10_fresh_after_lookup.2.2 1 mBack rfl⟩

end Upp
